import Mathlib

set_option maxRecDepth 4000

/-!
Verification of `hnswlib::ShardedLabelLookup` (src/hnswlib/shard_label.h)
and its interaction with the instrumentation wrapper
`hnswlib::HNSWLightProfiler::Timer` (src/hnswlib/hnsw_profiler.h).

Shallow embedding conventions:
* `labeltype` (defined as `size_t` in hnswlib.h, which is not part of the
  supplied sources; the spec describes it as a hashable, equality-comparable
  key) is embedded as `Nat`.
* `tableint` is `unsigned int` (32 bits); values stored in the map are taken
  modulo `2^32`, which models the conversion of the caller-supplied argument
  to the parameter type `tableint` at the call boundary.
* `std::unordered_map<labeltype, tableint>` is embedded as an association
  list `List (Nat x Nat)` with unique keys; `operator[]=`, `find` and `erase`
  become `mapInsert`, `mapFind` and `mapErase`.
* `std::vector<Shard>` is embedded as `List (List (Nat x Nat))`; the
  constructor builds it with `NUM_SHARDS` empty shards and no operation ever
  resizes it.
* Locking is not part of the sequential state; the lock acquisitions
  performed by each operation are modelled separately by instrumented
  variants (`insertLocked`, `findLocked`, `eraseLocked`) that return the
  list of shard indices whose mutex the operation locks, read off from the
  single `std::unique_lock`/`std::shared_lock` statement in each body.
-/

namespace hnswlib

/-- Two to the power 32: one more than the largest `tableint` (unsigned int)
value. -/
def U32 : Nat := 4294967296

/-- Modelled from the spec: `std::hash` over the label domain, "a hash of the
label value", a pure deterministic function.  `hnswlib.h` (not among the
supplied sources) defines `labeltype` as `size_t`, and libstdc++'s
`std::hash` on an unsigned integral type is the identity. -/
def stdHashNat (x : Nat) : Nat := x

/-- `static constexpr size_t NUM_SHARDS = 128;` -/
def NUM_SHARDS : Nat := 128

/-- Lookup in an association list: `unordered_map::find`.  Returns the value
of the first (with unique keys: the only) entry with key `k`. -/
def mapFind (m : List (Nat × Nat)) (k : Nat) : Option Nat :=
  match m with
  | [] => none
  | (a, b) :: t => if a = k then some b else mapFind t k

/-- Store through `unordered_map::operator[]`: overwrite the entry with key
`k` if present, otherwise append a fresh entry. -/
def mapInsert (m : List (Nat × Nat)) (k v : Nat) : List (Nat × Nat) :=
  match m with
  | [] => [(k, v)]
  | (a, b) :: t => if a = k then (k, v) :: t else (a, b) :: mapInsert t k v

/-- `unordered_map::erase`: remove the entry with key `k`.  (On lists with
unique keys, removing every entry with key `k` coincides with removing the
single one.) -/
def mapErase (m : List (Nat × Nat)) (k : Nat) : List (Nat × Nat) :=
  match m with
  | [] => []
  | (a, b) :: t => if a = k then mapErase t k else (a, b) :: mapErase t k

/-- Keys of an association list. -/
def mapKeys (m : List (Nat × Nat)) : List Nat := m.map Prod.fst

/-- The state of a `ShardedLabelLookup`: the vector `shards_`, each shard
reduced to its map (the per-shard mutex carries no sequential state). -/
structure ShardedLabelLookup where
  shards_ : List (List (Nat × Nat))
deriving DecidableEq

namespace ShardedLabelLookup

/-- The constructor `ShardedLabelLookup() : shards_(NUM_SHARDS) {}`:
`NUM_SHARDS` shards, each with an empty map. -/
def init : ShardedLabelLookup := ⟨List.replicate NUM_SHARDS []⟩

/-- `size_t get_shard_index(labeltype label) const`:
`std::hash<labeltype>{}(label) % NUM_SHARDS`.  A const member: it takes the
instance but reads none of its state. -/
def get_shard_index (_s : ShardedLabelLookup) (label : Nat) : Nat :=
  stdHashNat label % NUM_SHARDS

/-- `void insert(labeltype label, tableint id)`:
`shards_[idx].map[label] = id;` under the shard's write lock.  The `% U32`
models the conversion of the argument to `tableint`. -/
def insert (s : ShardedLabelLookup) (label id : Nat) : ShardedLabelLookup :=
  let idx := s.get_shard_index label
  ⟨s.shards_.set idx (mapInsert (s.shards_.getD idx []) label (id % U32))⟩

/-- `tableint find(labeltype label) const`:
`(it != map.end()) ? it->second : -1` under the shard's read lock;
`-1` converted to `tableint` is `U32 - 1`. -/
def find (s : ShardedLabelLookup) (label : Nat) : Nat :=
  let idx := s.get_shard_index label
  match mapFind (s.shards_.getD idx []) label with
  | some v => v
  | none => U32 - 1

/-- `bool erase(labeltype label)`: `return map.erase(label) > 0;` under the
shard's write lock.  Returns the updated state together with the flag. -/
def erase (s : ShardedLabelLookup) (label : Nat) : Bool × ShardedLabelLookup :=
  let idx := s.get_shard_index label
  let m := s.shards_.getD idx []
  ((mapFind m label).isSome, ⟨s.shards_.set idx (mapErase m label)⟩)

end ShardedLabelLookup

/-- The sentinel `find` yields for an absent label: `(tableint)(-1)`. -/
def NOT_FOUND : Nat := U32 - 1

/-! The public API as a transition system: one `Op` per call. -/

/-- One call of the public API of `ShardedLabelLookup`. -/
inductive Op where
  | insertOp : Nat → Nat → Op
  | findOp : Nat → Op
  | eraseOp : Nat → Op
deriving DecidableEq

/-- The state after one call (`find` is a const member and leaves the state
unchanged). -/
def step (s : ShardedLabelLookup) (op : Op) : ShardedLabelLookup :=
  match op with
  | .insertOp label id => s.insert label id
  | .findOp _ => s
  | .eraseOp label => (s.erase label).2

/-- The value a call returns to its caller (`insert` returns `void`,
rendered as `0`; `erase`'s `bool` is rendered as `1` / `0`). -/
def opResult (s : ShardedLabelLookup) (op : Op) : Nat :=
  match op with
  | .insertOp _ _ => 0
  | .findOp label => s.find label
  | .eraseOp label => if (s.erase label).1 then 1 else 0

/-- Run a sequence of calls, threading the state. -/
def runOps (s : ShardedLabelLookup) (ops : List Op) : ShardedLabelLookup :=
  match ops with
  | [] => s
  | op :: rest => runOps (step s op) rest

/-- Does a call take `L` as its label argument? -/
def mentions (op : Op) (L : Nat) : Bool :=
  match op with
  | .insertOp label _ => label = L
  | .findOp label => label = L
  | .eraseOp label => label = L

/-- Membership of a label, read off the shard `get_shard_index` routes it
to. -/
def ShardedLabelLookup.contains (s : ShardedLabelLookup) (L : Nat) : Bool :=
  (mapFind (s.shards_.getD (s.get_shard_index L) []) L).isSome

/-- The labels stored anywhere in the structure, shard by shard. -/
def labelsOf (s : ShardedLabelLookup) : List Nat :=
  (s.shards_.map mapKeys).flatten

/-- Structural invariant of `ShardedLabelLookup`: 128 shards, every entry
lives in the shard its label hashes to, and no shard holds two entries for
one key. -/
def WF (s : ShardedLabelLookup) : Prop :=
  s.shards_.length = NUM_SHARDS ∧
  (∀ i < NUM_SHARDS, ∀ p ∈ s.shards_.getD i [], s.get_shard_index p.1 = i) ∧
  (∀ i < NUM_SHARDS, (mapKeys (s.shards_.getD i [])).Nodup)

/-! The abstract set of live labels carried by a call sequence. -/

/-- The effect of one call on the abstract set of live labels. -/
def liveStep (A : Finset Nat) (op : Op) : Finset Nat :=
  match op with
  | .insertOp label _ => insert label A
  | .findOp _ => A
  | .eraseOp label => A.erase label

/-- Abstract live-label set accumulated from `A` over a call sequence. -/
def liveFrom (A : Finset Nat) (ops : List Op) : Finset Nat :=
  match ops with
  | [] => A
  | op :: rest => liveFrom (liveStep A op) rest

/-- The labels inserted and not subsequently erased by a call sequence. -/
def liveLabels (ops : List Op) : Finset Nat := liveFrom ∅ ops

/-- The concrete structure tracks an abstract set of live labels. -/
def tracksLive (s : ShardedLabelLookup) (A : Finset Nat) : Prop :=
  WF s ∧ ∀ L, (s.contains L = true ↔ L ∈ A)

instance decidableWF (s : ShardedLabelLookup) : Decidable (WF s) :=
  decidable_of_iff (s.shards_.length = NUM_SHARDS ∧
    (∀ i < NUM_SHARDS, ∀ p ∈ s.shards_.getD i [], s.get_shard_index p.1 = i) ∧
    (∀ i < NUM_SHARDS, (mapKeys (s.shards_.getD i [])).Nodup)) Iff.rfl

/-! The instrumentation wrapper (src/hnswlib/hnsw_profiler.h): a scoped
`HNSWLightProfiler::Timer(tag)` around a call records one event and touches
nothing in the lookup.  Wall-clock durations and thread ids are inputs of
the model. -/

/-- `HNSWLightProfiler::Event`: a tag, the recording thread and a measured
duration in microseconds. -/
structure Event where
  tag : String
  tid : Nat
  duration_us : Nat
deriving DecidableEq

/-- A lookup together with the profiler's accumulated event storage. -/
structure ProfiledState where
  lookup : ShardedLabelLookup
  events : List Event
deriving DecidableEq

/-- One call wrapped in a scoped `Timer`: the call itself runs unchanged on
the lookup, and on scope exit the Timer's destructor appends one event. -/
def timedStep (ps : ProfiledState) (op : Op) (e : Event) : ProfiledState :=
  ⟨step ps.lookup op, ps.events ++ [e]⟩

/-- Run a sequence of wrapped calls (each paired with the event its Timer
records). -/
def runTimed (ps : ProfiledState) (l : List (Op × Event)) : ProfiledState :=
  match l with
  | [] => ps
  | oe :: rest => runTimed (timedStep ps oe.1 oe.2) rest

/-- The values returned to the caller by a sequence of plain calls. -/
def runResults (s : ShardedLabelLookup) (ops : List Op) : List Nat :=
  match ops with
  | [] => []
  | op :: rest => opResult s op :: runResults (step s op) rest

/-- The values returned to the caller by a sequence of wrapped calls. -/
def runTimedResults (ps : ProfiledState) (l : List (Op × Event)) : List Nat :=
  match l with
  | [] => []
  | oe :: rest => opResult ps.lookup oe.1 :: runTimedResults (timedStep ps oe.1 oe.2) rest

/-! Lock instrumentation: each operation's body acquires exactly one lock,
`shards_[idx].mutex` for `idx = get_shard_index(label)`.  The locked
variants return the operation's result together with the list of shard
indices whose mutex the body locks, in acquisition order. -/

/-- `insert` with its lock trace: one `std::unique_lock` on
`shards_[idx].mutex`. -/
def insertLocked (s : ShardedLabelLookup) (label id : Nat) :
    ShardedLabelLookup × List Nat :=
  let idx := s.get_shard_index label
  (s.insert label id, [idx])

/-- `find` with its lock trace: one `std::shared_lock` on
`shards_[idx].mutex`. -/
def findLocked (s : ShardedLabelLookup) (label : Nat) : Nat × List Nat :=
  let idx := s.get_shard_index label
  (s.find label, [idx])

/-- `erase` with its lock trace: one `std::unique_lock` on
`shards_[idx].mutex`. -/
def eraseLocked (s : ShardedLabelLookup) (label : Nat) :
    (Bool × ShardedLabelLookup) × List Nat :=
  let idx := s.get_shard_index label
  (s.erase label, [idx])

/-! Association-list lemmas. -/

theorem mapFind_mapInsert_self (m : List (Nat × Nat)) (k v : Nat) :
    mapFind (mapInsert m k v) k = some v := by
  induction m with
  | nil => simp [mapInsert, mapFind]
  | cons p t ih =>
    obtain ⟨a, b⟩ := p
    by_cases hak : a = k
    · simp [mapInsert, hak, mapFind]
    · simp [mapInsert, hak, mapFind, ih]

theorem mapFind_mapInsert_ne (m : List (Nat × Nat)) (k v q : Nat) (h : q ≠ k) :
    mapFind (mapInsert m k v) q = mapFind m q := by
  induction m with
  | nil => simp [mapInsert, mapFind, Ne.symm h]
  | cons p t ih =>
    obtain ⟨a, b⟩ := p
    by_cases hak : a = k
    · subst hak
      simp [mapInsert, mapFind, Ne.symm h]
    · simp [mapInsert, hak, mapFind, ih]

theorem mapFind_mapErase_self (m : List (Nat × Nat)) (k : Nat) :
    mapFind (mapErase m k) k = none := by
  induction m with
  | nil => simp [mapErase, mapFind]
  | cons p t ih =>
    obtain ⟨a, b⟩ := p
    by_cases hak : a = k
    · simp [mapErase, hak, ih]
    · simp [mapErase, hak, mapFind, ih]

theorem mapFind_mapErase_ne (m : List (Nat × Nat)) (k q : Nat) (h : q ≠ k) :
    mapFind (mapErase m k) q = mapFind m q := by
  induction m with
  | nil => simp [mapErase]
  | cons p t ih =>
    obtain ⟨a, b⟩ := p
    by_cases hak : a = k
    · subst hak
      simp [mapErase, mapFind, Ne.symm h, ih]
    · simp [mapErase, hak, mapFind, ih]

theorem mapFind_eq_none_iff (m : List (Nat × Nat)) (k : Nat) :
    mapFind m k = none ↔ k ∉ mapKeys m := by
  induction m with
  | nil => simp [mapFind, mapKeys]
  | cons p t ih =>
    obtain ⟨a, b⟩ := p
    by_cases hak : a = k
    · simp [mapFind, hak, mapKeys]
    · simp only [mapFind, if_neg hak, mapKeys, List.map_cons, List.mem_cons]
      rw [ih]
      simp [mapKeys, Ne.symm hak]

theorem mapFind_isSome_iff (m : List (Nat × Nat)) (k : Nat) :
    (mapFind m k).isSome = true ↔ k ∈ mapKeys m := by
  rcases hf : mapFind m k with _ | v
  · simp [(mapFind_eq_none_iff m k).mp hf]
  · simp only [Option.isSome_some, true_iff]
    by_contra hk
    rw [← mapFind_eq_none_iff] at hk
    rw [hf] at hk
    cases hk

theorem mem_mapInsert (m : List (Nat × Nat)) (k v : Nat) (p : Nat × Nat)
    (h : p ∈ mapInsert m k v) : p = (k, v) ∨ p ∈ m := by
  induction m with
  | nil => simpa [mapInsert] using h
  | cons q t ih =>
    obtain ⟨a, b⟩ := q
    by_cases hak : a = k
    · simp [mapInsert, hak] at h
      rcases h with h | h
      · exact Or.inl (by simp [h])
      · exact Or.inr (by simp [h])
    · simp [mapInsert, hak] at h
      rcases h with h | h
      · exact Or.inr (by simp [h])
      · rcases ih h with h1 | h1
        · exact Or.inl h1
        · exact Or.inr (by simp [h1])

theorem mem_mapErase (m : List (Nat × Nat)) (k : Nat) (p : Nat × Nat)
    (h : p ∈ mapErase m k) : p ∈ m := by
  induction m with
  | nil => simp [mapErase] at h
  | cons q t ih =>
    obtain ⟨a, b⟩ := q
    by_cases hak : a = k
    · simp [mapErase, hak] at h
      exact List.mem_cons_of_mem _ (ih h)
    · simp [mapErase, hak] at h
      rcases h with h | h
      · exact by simp [h]
      · exact List.mem_cons_of_mem _ (ih h)

theorem mapKeys_mapInsert_present (m : List (Nat × Nat)) (k v : Nat)
    (h : (mapFind m k).isSome = true) :
    mapKeys (mapInsert m k v) = mapKeys m := by
  induction m with
  | nil => simp [mapFind] at h
  | cons q t ih =>
    obtain ⟨a, b⟩ := q
    by_cases hak : a = k
    · simp [mapInsert, hak, mapKeys]
    · simp [mapFind, hak] at h
      simp [mapInsert, hak, mapKeys] at *
      exact ih h

theorem mapKeys_mapInsert_absent (m : List (Nat × Nat)) (k v : Nat)
    (h : mapFind m k = none) :
    mapKeys (mapInsert m k v) = mapKeys m ++ [k] := by
  induction m with
  | nil => simp [mapInsert, mapKeys]
  | cons q t ih =>
    obtain ⟨a, b⟩ := q
    by_cases hak : a = k
    · simp [mapFind, hak] at h
    · simp [mapFind, hak] at h
      simp [mapInsert, hak, mapKeys] at *
      exact ih h

theorem mapKeys_mapErase_sublist (m : List (Nat × Nat)) (k : Nat) :
    (mapKeys (mapErase m k)).Sublist (mapKeys m) := by
  induction m with
  | nil => simp [mapErase, mapKeys]
  | cons q t ih =>
    obtain ⟨a, b⟩ := q
    by_cases hak : a = k
    · subst hak
      simp only [mapErase, if_pos rfl, mapKeys, List.map_cons]
      exact ih.cons a
    · simp only [mapErase, if_neg hak, mapKeys, List.map_cons]
      exact ih.cons₂ a

theorem mapErase_noop (m : List (Nat × Nat)) (k : Nat)
    (h : mapFind m k = none) : mapErase m k = m := by
  induction m with
  | nil => simp [mapErase]
  | cons q t ih =>
    obtain ⟨a, b⟩ := q
    by_cases hak : a = k
    · simp [mapFind, hak] at h
    · simp [mapFind, hak] at h
      simp [mapErase, hak, ih h]

theorem length_mapErase_present (m : List (Nat × Nat)) (k : Nat)
    (hnd : (mapKeys m).Nodup) (h : (mapFind m k).isSome = true) :
    (mapErase m k).length + 1 = m.length := by
  induction m with
  | nil => simp [mapFind] at h
  | cons q t ih =>
    obtain ⟨a, b⟩ := q
    simp only [mapKeys, List.map_cons, List.nodup_cons] at hnd
    by_cases hak : a = k
    · subst hak
      have hnone : mapFind t a = none := (mapFind_eq_none_iff t a).mpr (by simpa [mapKeys] using hnd.1)
      simp [mapErase, mapErase_noop t a hnone]
    · simp [mapFind, hak] at h
      simp only [mapErase, if_neg hak, List.length_cons]
      rw [ih (by simpa [mapKeys] using hnd.2) h]

theorem length_mapInsert_present (m : List (Nat × Nat)) (k v : Nat)
    (h : (mapFind m k).isSome = true) :
    (mapInsert m k v).length = m.length := by
  have := mapKeys_mapInsert_present m k v h
  have h1 : (mapKeys (mapInsert m k v)).length = (mapKeys m).length := by rw [this]
  simpa [mapKeys] using h1

theorem length_mapInsert_absent (m : List (Nat × Nat)) (k v : Nat)
    (h : mapFind m k = none) :
    (mapInsert m k v).length = m.length + 1 := by
  have := mapKeys_mapInsert_absent m k v h
  have h1 : (mapKeys (mapInsert m k v)).length = (mapKeys m).length + 1 := by
    rw [this]; simp
  simpa [mapKeys] using h1

/-! Lemmas about the shard vector (`std::vector<Shard>` as a list). -/

theorem getD_set_self {α : Type _} (l : List α) (i : Nat) (a d : α)
    (h : i < l.length) : (l.set i a).getD i d = a := by
  rw [List.getD, List.get?_eq_getElem?, List.getElem?_set_eq_of_lt a h]
  rfl

theorem getD_set_ne {α : Type _} (l : List α) (i j : Nat) (a d : α)
    (h : j ≠ i) : (l.set i a).getD j d = l.getD j d := by
  rw [List.getD, List.get?_eq_getElem?, List.getElem?_set_ne (Ne.symm h),
    List.getD, List.get?_eq_getElem?]

theorem set_getD_self {α : Type _} (l : List α) (i : Nat) (d : α)
    (h : i < l.length) : l.set i (l.getD i d) = l := by
  apply List.ext_getElem?
  intro n
  by_cases hn : n = i
  · subst hn
    rw [List.getElem?_set_eq_of_lt _ h, List.getD, List.get?_eq_getElem?,
      List.getElem?_eq_getElem h]
    rfl
  · rw [List.getElem?_set_ne (Ne.symm hn)]

theorem getD_mem {α : Type _} (l : List α) (i : Nat) (d : α)
    (h : i < l.length) : l.getD i d ∈ l := by
  rw [List.getD, List.get?_eq_getElem?, List.getElem?_eq_getElem h]
  exact List.getElem_mem _

theorem mem_iff_getD {α : Type _} (l : List α) (a d : α) (h : a ∈ l) :
    ∃ i, i < l.length ∧ l.getD i d = a := by
  obtain ⟨i, hi, rfl⟩ := List.mem_iff_getElem.mp h
  refine ⟨i, hi, ?_⟩
  rw [List.getD, List.get?_eq_getElem?, List.getElem?_eq_getElem hi]
  rfl


theorem get_shard_index_lt (s : ShardedLabelLookup) (label : Nat) :
    s.get_shard_index label < NUM_SHARDS :=
  Nat.mod_lt _ (by decide)

theorem get_shard_index_congr (s s2 : ShardedLabelLookup) (label : Nat) :
    s.get_shard_index label = s2.get_shard_index label := rfl

/-! Characterisation of the three operations, shard by shard. -/

theorem shards_insert (s : ShardedLabelLookup) (label id : Nat) :
    (s.insert label id).shards_ = s.shards_.set (s.get_shard_index label)
      (mapInsert (s.shards_.getD (s.get_shard_index label) []) label (id % U32)) := rfl

theorem shards_erase (s : ShardedLabelLookup) (label : Nat) :
    (s.erase label).2.shards_ = s.shards_.set (s.get_shard_index label)
      (mapErase (s.shards_.getD (s.get_shard_index label) []) label) := rfl

theorem erase_flag (s : ShardedLabelLookup) (label : Nat) :
    (s.erase label).1 = s.contains label := rfl

theorem find_def (s : ShardedLabelLookup) (L : Nat) :
    s.find L = (mapFind (s.shards_.getD (s.get_shard_index L) []) L).getD NOT_FOUND := by
  simp only [ShardedLabelLookup.find]
  rcases h : mapFind (s.shards_.getD (s.get_shard_index L) []) L with _ | v <;> rfl

theorem insert_getD_self (s : ShardedLabelLookup) (label id : Nat)
    (h : s.shards_.length = NUM_SHARDS) :
    (s.insert label id).shards_.getD (s.get_shard_index label) [] =
      mapInsert (s.shards_.getD (s.get_shard_index label) []) label (id % U32) := by
  rw [shards_insert]
  exact getD_set_self _ _ _ _ (by rw [h]; exact get_shard_index_lt s label)

theorem insert_getD_ne (s : ShardedLabelLookup) (label id j : Nat)
    (hj : j ≠ s.get_shard_index label) :
    (s.insert label id).shards_.getD j [] = s.shards_.getD j [] := by
  rw [shards_insert]
  exact getD_set_ne _ _ _ _ _ hj

theorem erase_getD_self (s : ShardedLabelLookup) (label : Nat)
    (h : s.shards_.length = NUM_SHARDS) :
    (s.erase label).2.shards_.getD (s.get_shard_index label) [] =
      mapErase (s.shards_.getD (s.get_shard_index label) []) label := by
  rw [shards_erase]
  exact getD_set_self _ _ _ _ (by rw [h]; exact get_shard_index_lt s label)

theorem erase_getD_ne (s : ShardedLabelLookup) (label j : Nat)
    (hj : j ≠ s.get_shard_index label) :
    (s.erase label).2.shards_.getD j [] = s.shards_.getD j [] := by
  rw [shards_erase]
  exact getD_set_ne _ _ _ _ _ hj

theorem find_insert_self (s : ShardedLabelLookup) (label id : Nat)
    (h : s.shards_.length = NUM_SHARDS) :
    (s.insert label id).find label = id % U32 := by
  rw [find_def, get_shard_index_congr (s.insert label id) s label,
    insert_getD_self s label id h, mapFind_mapInsert_self]
  rfl

theorem find_insert_other (s : ShardedLabelLookup) (label id L : Nat)
    (h : s.shards_.length = NUM_SHARDS) (hne : L ≠ label) :
    (s.insert label id).find L = s.find L := by
  rw [find_def, find_def, get_shard_index_congr (s.insert label id) s L]
  by_cases hsh : s.get_shard_index L = s.get_shard_index label
  · rw [hsh, insert_getD_self s label id h, mapFind_mapInsert_ne _ _ _ _ hne, ← hsh]
  · rw [insert_getD_ne s label id _ hsh]

theorem find_erase_self (s : ShardedLabelLookup) (label : Nat)
    (h : s.shards_.length = NUM_SHARDS) :
    (s.erase label).2.find label = NOT_FOUND := by
  rw [find_def, get_shard_index_congr (s.erase label).2 s label,
    erase_getD_self s label h, mapFind_mapErase_self]
  rfl

theorem find_erase_other (s : ShardedLabelLookup) (label L : Nat)
    (h : s.shards_.length = NUM_SHARDS) (hne : L ≠ label) :
    (s.erase label).2.find L = s.find L := by
  rw [find_def, find_def, get_shard_index_congr (s.erase label).2 s L]
  by_cases hsh : s.get_shard_index L = s.get_shard_index label
  · rw [hsh, erase_getD_self s label h, mapFind_mapErase_ne _ _ _ hne, ← hsh]
  · rw [erase_getD_ne s label _ hsh]

theorem contains_insert (s : ShardedLabelLookup) (label id L : Nat)
    (h : s.shards_.length = NUM_SHARDS) :
    (s.insert label id).contains L =
      (if L = label then true else s.contains L) := by
  unfold ShardedLabelLookup.contains
  rw [get_shard_index_congr (s.insert label id) s L]
  by_cases hL : L = label
  · subst hL
    rw [insert_getD_self s L id h, mapFind_mapInsert_self]
    simp
  · simp only [if_neg hL]
    by_cases hsh : s.get_shard_index L = s.get_shard_index label
    · rw [hsh, insert_getD_self s label id h, mapFind_mapInsert_ne _ _ _ _ hL, ← hsh]
    · rw [insert_getD_ne s label id _ hsh]

theorem contains_erase (s : ShardedLabelLookup) (label L : Nat)
    (h : s.shards_.length = NUM_SHARDS) :
    (s.erase label).2.contains L =
      (if L = label then false else s.contains L) := by
  unfold ShardedLabelLookup.contains
  rw [get_shard_index_congr (s.erase label).2 s L]
  by_cases hL : L = label
  · subst hL
    rw [erase_getD_self s L h, mapFind_mapErase_self]
    simp
  · simp only [if_neg hL]
    by_cases hsh : s.get_shard_index L = s.get_shard_index label
    · rw [hsh, erase_getD_self s label h, mapFind_mapErase_ne _ _ _ hL, ← hsh]
    · rw [erase_getD_ne s label _ hsh]

theorem eq_of_shards_eq (s1 s2 : ShardedLabelLookup)
    (h : s1.shards_ = s2.shards_) : s1 = s2 := by
  cases s1
  cases s2
  cases h
  rfl

theorem erase_absent_noop (s : ShardedLabelLookup) (label : Nat)
    (h : s.shards_.length = NUM_SHARDS) (habs : s.contains label = false) :
    (s.erase label).2 = s := by
  unfold ShardedLabelLookup.contains at habs
  have hnone : mapFind (s.shards_.getD (s.get_shard_index label) []) label = none := by
    rcases hf : mapFind (s.shards_.getD (s.get_shard_index label) []) label with _ | v
    · rfl
    · rw [hf] at habs
      cases habs
  apply eq_of_shards_eq
  rw [shards_erase, mapErase_noop _ _ hnone]
  exact set_getD_self _ _ _ (by rw [h]; exact get_shard_index_lt s label)

/-! Preservation along sequences of calls. -/

theorem length_shards_step (s : ShardedLabelLookup) (op : Op) :
    (step s op).shards_.length = s.shards_.length := by
  cases op with
  | insertOp label id =>
    show (s.insert label id).shards_.length = s.shards_.length
    rw [shards_insert, List.length_set]
  | findOp label => rfl
  | eraseOp label =>
    show (s.erase label).2.shards_.length = s.shards_.length
    rw [shards_erase, List.length_set]

theorem length_shards_runOps (s : ShardedLabelLookup) (ops : List Op) :
    (runOps s ops).shards_.length = s.shards_.length := by
  induction ops generalizing s with
  | nil => rfl
  | cons op rest ih =>
    show (runOps (step s op) rest).shards_.length = s.shards_.length
    rw [ih (step s op), length_shards_step]

theorem find_step_untouched (s : ShardedLabelLookup) (op : Op) (L : Nat)
    (h : s.shards_.length = NUM_SHARDS) (hm : mentions op L = false) :
    (step s op).find L = s.find L := by
  cases op with
  | insertOp label id =>
    simp only [mentions, decide_eq_false_iff_not] at hm
    exact find_insert_other s label id L h (Ne.symm hm)
  | findOp label => rfl
  | eraseOp label =>
    simp only [mentions, decide_eq_false_iff_not] at hm
    exact find_erase_other s label L h (Ne.symm hm)

theorem find_runOps_untouched (s : ShardedLabelLookup) (ops : List Op) (L : Nat)
    (h : s.shards_.length = NUM_SHARDS) (hm : ∀ op ∈ ops, mentions op L = false) :
    (runOps s ops).find L = s.find L := by
  induction ops generalizing s with
  | nil => rfl
  | cons op rest ih =>
    show (runOps (step s op) rest).find L = s.find L
    rw [ih (step s op) (by rw [length_shards_step]; exact h)
        (fun o ho => hm o (List.mem_cons_of_mem _ ho)),
      find_step_untouched s op L h (hm op (List.mem_cons_self _ _))]

theorem getD_replicate_empty (i n : Nat) :
    (List.replicate n ([] : List (Nat × Nat))).getD i [] = [] := by
  induction n generalizing i with
  | zero => cases i <;> rfl
  | succ n ih =>
    cases i with
    | zero => rfl
    | succ m => exact ih m

theorem WF_init : WF ShardedLabelLookup.init := by
  have hs : ShardedLabelLookup.init.shards_ = List.replicate NUM_SHARDS [] := rfl
  refine ⟨by rw [hs, List.length_replicate], ?_, ?_⟩
  · intro i hi p hp
    rw [hs, getD_replicate_empty] at hp
    cases hp
  · intro i hi
    rw [hs, getD_replicate_empty]
    simp [mapKeys]

theorem WF_insert (s : ShardedLabelLookup) (label id : Nat) (hw : WF s) :
    WF (s.insert label id) := by
  obtain ⟨hlen, hroute, hnd⟩ := hw
  refine ⟨?_, ?_, ?_⟩
  · rw [shards_insert, List.length_set, hlen]
  · intro i hi p hp
    rw [get_shard_index_congr (s.insert label id) s]
    by_cases hish : i = s.get_shard_index label
    · subst hish
      rw [insert_getD_self s label id hlen] at hp
      rcases mem_mapInsert _ _ _ _ hp with h1 | h1
      · rw [h1]
      · exact hroute _ hi p h1
    · rw [insert_getD_ne s label id _ hish] at hp
      exact hroute _ hi p hp
  · intro i hi
    by_cases hish : i = s.get_shard_index label
    · subst hish
      rw [insert_getD_self s label id hlen]
      rcases hf : mapFind (s.shards_.getD (s.get_shard_index label) []) label with _ | v
      · rw [mapKeys_mapInsert_absent _ _ _ hf, List.nodup_append]
        refine ⟨hnd _ hi, List.nodup_singleton _, ?_⟩
        intro a ha hb
        simp only [List.mem_singleton] at hb
        subst hb
        exact (mapFind_eq_none_iff _ _).mp hf ha
      · rw [mapKeys_mapInsert_present _ _ _ (by rw [hf]; rfl)]
        exact hnd _ hi
    · rw [insert_getD_ne s label id _ hish]
      exact hnd _ hi

theorem WF_erase (s : ShardedLabelLookup) (label : Nat) (hw : WF s) :
    WF (s.erase label).2 := by
  obtain ⟨hlen, hroute, hnd⟩ := hw
  refine ⟨?_, ?_, ?_⟩
  · rw [shards_erase, List.length_set, hlen]
  · intro i hi p hp
    rw [get_shard_index_congr (s.erase label).2 s]
    by_cases hish : i = s.get_shard_index label
    · subst hish
      rw [erase_getD_self s label hlen] at hp
      exact hroute _ hi p (mem_mapErase _ _ _ hp)
    · rw [erase_getD_ne s label _ hish] at hp
      exact hroute _ hi p hp
  · intro i hi
    by_cases hish : i = s.get_shard_index label
    · subst hish
      rw [erase_getD_self s label hlen]
      exact List.Nodup.sublist (mapKeys_mapErase_sublist _ _) (hnd _ hi)
    · rw [erase_getD_ne s label _ hish]
      exact hnd _ hi

theorem WF_step (s : ShardedLabelLookup) (op : Op) (hw : WF s) :
    WF (step s op) := by
  cases op with
  | insertOp label id => exact WF_insert s label id hw
  | findOp label => exact hw
  | eraseOp label => exact WF_erase s label hw

theorem WF_runOps (s : ShardedLabelLookup) (ops : List Op) (hw : WF s) :
    WF (runOps s ops) := by
  induction ops generalizing s with
  | nil => exact hw
  | cons op rest ih => exact ih (step s op) (WF_step s op hw)

/-! From per-shard membership to the global label scan. -/

theorem getD_eq_getElem_of_lt {α : Type _} (l : List α) (i : Nat) (d : α)
    (h : i < l.length) : l.getD i d = l[i] := by
  rw [List.getD, List.get?_eq_getElem?, List.getElem?_eq_getElem h]
  rfl

theorem mem_labelsOf_iff (s : ShardedLabelLookup) (hw : WF s) (L : Nat) :
    L ∈ labelsOf s ↔ s.contains L = true := by
  obtain ⟨hlen, hroute, hnd⟩ := hw
  unfold labelsOf
  rw [List.mem_flatten]
  constructor
  · rintro ⟨l, hl, hLl⟩
    rw [List.mem_map] at hl
    obtain ⟨sh, hsh, rfl⟩ := hl
    obtain ⟨i, hi, hgd⟩ := mem_iff_getD s.shards_ sh [] hsh
    have hiN : i < NUM_SHARDS := by rw [← hlen]; exact hi
    rw [← hgd] at hLl
    rw [mapKeys, List.mem_map] at hLl
    obtain ⟨p, hp, rfl⟩ := hLl
    have hri := hroute i hiN p hp
    unfold ShardedLabelLookup.contains
    rw [hri, mapFind_isSome_iff, mapKeys]
    exact List.mem_map.mpr ⟨p, hp, rfl⟩
  · intro hc
    unfold ShardedLabelLookup.contains at hc
    rw [mapFind_isSome_iff] at hc
    refine ⟨mapKeys (s.shards_.getD (s.get_shard_index L) []), ?_, hc⟩
    rw [List.mem_map]
    refine ⟨s.shards_.getD (s.get_shard_index L) [], ?_, rfl⟩
    apply getD_mem
    rw [hlen]
    exact get_shard_index_lt s L

theorem nodup_labelsOf (s : ShardedLabelLookup) (hw : WF s) :
    (labelsOf s).Nodup := by
  obtain ⟨hlen, hroute, hnd⟩ := hw
  unfold labelsOf
  rw [List.nodup_flatten]
  constructor
  · intro l hl
    rw [List.mem_map] at hl
    obtain ⟨sh, hsh, rfl⟩ := hl
    obtain ⟨i, hi, hgd⟩ := mem_iff_getD s.shards_ sh [] hsh
    rw [← hgd]
    exact hnd i (by rw [← hlen]; exact hi)
  · rw [List.pairwise_iff_getElem]
    intro i j hi hj hij
    have hi2 : i < s.shards_.length := by simpa using hi
    have hj2 : j < s.shards_.length := by simpa using hj
    intro a ha hb
    rw [List.getElem_map] at ha hb
    rw [mapKeys, List.mem_map] at ha hb
    obtain ⟨p, hp, hpa⟩ := ha
    obtain ⟨q, hq, hqa⟩ := hb
    have hpi : p ∈ s.shards_.getD i [] := by
      rw [getD_eq_getElem_of_lt s.shards_ i [] hi2]
      exact hp
    have hqj : q ∈ s.shards_.getD j [] := by
      rw [getD_eq_getElem_of_lt s.shards_ j [] hj2]
      exact hq
    have h1 := hroute i (by rw [← hlen]; exact hi2) p hpi
    have h2 := hroute j (by rw [← hlen]; exact hj2) q hqj
    rw [hpa] at h1
    rw [hqa] at h2
    rw [h1] at h2
    omega


theorem tracksLive_step (s : ShardedLabelLookup) (op : Op) (A : Finset Nat)
    (h : tracksLive s A) : tracksLive (step s op) (liveStep A op) := by
  obtain ⟨hw, hmem⟩ := h
  refine ⟨WF_step s op hw, ?_⟩
  intro L
  cases op with
  | insertOp label id =>
    show (s.insert label id).contains L = true ↔ L ∈ insert label A
    rw [contains_insert s label id L hw.1]
    by_cases hL : L = label
    · subst hL
      simp
    · simp only [if_neg hL, Finset.mem_insert, hL, false_or]
      exact hmem L
  | findOp label => exact hmem L
  | eraseOp label =>
    show (s.erase label).2.contains L = true ↔ L ∈ A.erase label
    rw [contains_erase s label L hw.1]
    by_cases hL : L = label
    · subst hL
      simp
    · simp only [if_neg hL, Finset.mem_erase, ne_eq, hL, not_false_iff, true_and]
      exact hmem L

theorem tracksLive_runOps (s : ShardedLabelLookup) (ops : List Op) (A : Finset Nat)
    (h : tracksLive s A) : tracksLive (runOps s ops) (liveFrom A ops) := by
  induction ops generalizing s A with
  | nil => exact h
  | cons op rest ih => exact ih (step s op) (liveStep A op) (tracksLive_step s op A h)

theorem tracksLive_init : tracksLive ShardedLabelLookup.init ∅ := by
  refine ⟨WF_init, ?_⟩
  intro L
  unfold ShardedLabelLookup.contains
  have hs : ShardedLabelLookup.init.shards_ = List.replicate NUM_SHARDS [] := rfl
  rw [hs, getD_replicate_empty]
  simp [mapFind]

/-! The claims. -/

/-- C1: for every label `L` and id, after `insert(L, id)` a `find(L)` returns
`id`, and keeps returning `id` across any sequence of operations on other
labels; after a subsequent `insert(L, id2)` it returns `id2`, and after an
`erase(L)` it returns the not-found sentinel. -/
theorem insert_find_until_overwrite_or_erase (s : ShardedLabelLookup)
    (L id id2 : Nat) (ops : List Op) (h : s.shards_.length = NUM_SHARDS)
    (hid : id < U32) (hid2 : id2 < U32)
    (hops : ∀ op ∈ ops, mentions op L = false) :
    (runOps (s.insert L id) ops).find L = id ∧
    ((runOps (s.insert L id) ops).insert L id2).find L = id2 ∧
    ((runOps (s.insert L id) ops).erase L).2.find L = NOT_FOUND := by
  have h1 : (s.insert L id).shards_.length = NUM_SHARDS := by
    rw [shards_insert, List.length_set]
    exact h
  have hrun : (runOps (s.insert L id) ops).shards_.length = NUM_SHARDS := by
    rw [length_shards_runOps]
    exact h1
  refine ⟨?_, ?_, ?_⟩
  · rw [find_runOps_untouched _ _ _ h1 hops, find_insert_self s L id h,
      Nat.mod_eq_of_lt hid]
  · rw [find_insert_self _ L id2 hrun, Nat.mod_eq_of_lt hid2]
  · exact find_erase_self _ L hrun

/-- Witness for C1: a concrete run with unrelated traffic in between. -/
theorem insert_find_until_overwrite_or_erase_witness :
    (runOps (ShardedLabelLookup.init.insert 42 7) [Op.insertOp 5 1, Op.eraseOp 6]).find 42 = 7 ∧
    ((runOps (ShardedLabelLookup.init.insert 42 7) [Op.insertOp 5 1, Op.eraseOp 6]).insert 42 9).find 42 = 9 ∧
    ((runOps (ShardedLabelLookup.init.insert 42 7) [Op.insertOp 5 1, Op.eraseOp 6]).erase 42).2.find 42 = NOT_FOUND :=
  insert_find_until_overwrite_or_erase ShardedLabelLookup.init 42 7 9
    [Op.insertOp 5 1, Op.eraseOp 6] (by decide) (by decide) (by decide) (by decide)

/-- C2: in every state reachable by any call sequence from a fresh
structure, the shard vector is well formed (every entry sits in the shard
`get_shard_index` selects, with at most one entry per label in a shard), the
scan of all shards lists every stored label exactly once, and the stored
labels are exactly those inserted and not subsequently erased. -/
theorem shards_partition_live_labels (ops : List Op) :
    WF (runOps ShardedLabelLookup.init ops) ∧
    (labelsOf (runOps ShardedLabelLookup.init ops)).Nodup ∧
    (∀ L, L ∈ labelsOf (runOps ShardedLabelLookup.init ops) ↔ L ∈ liveLabels ops) := by
  obtain ⟨hw, hmem⟩ := tracksLive_runOps ShardedLabelLookup.init ops ∅ tracksLive_init
  refine ⟨hw, nodup_labelsOf _ hw, fun L => ?_⟩
  rw [mem_labelsOf_iff _ hw L]
  exact hmem L

/-- C3: `get_shard_index` is a pure deterministic function of the label:
it ignores the instance's state (two instances agree on every label) and
always lands in `[0, NUM_SHARDS)`. -/
theorem get_shard_index_pure_total (s s2 : ShardedLabelLookup) (label : Nat) :
    s.get_shard_index label = s2.get_shard_index label ∧
    s.get_shard_index label < NUM_SHARDS :=
  ⟨rfl, get_shard_index_lt s label⟩

theorem length_mapErase_le (m : List (Nat × Nat)) (k : Nat) :
    (mapErase m k).length ≤ m.length := by
  induction m with
  | nil => simp [mapErase]
  | cons q t ih =>
    obtain ⟨a, b⟩ := q
    by_cases hak : a = k
    · simp only [mapErase, if_pos hak, List.length_cons]
      exact Nat.le_succ_of_le ih
    · simp only [mapErase, if_neg hak, List.length_cons]
      omega

/-- C4: `insert(label, id)` never fails: afterwards `find(label)` returns
`id` and the shard holds exactly the entry `(label, id)`; if the label was
present its id is silently overwritten (shard size unchanged), otherwise a
new entry is created (shard size grows by one). -/
theorem insert_never_fails (s : ShardedLabelLookup) (label id : Nat)
    (h : s.shards_.length = NUM_SHARDS) (hid : id < U32) :
    (s.insert label id).find label = id ∧
    mapFind ((s.insert label id).shards_.getD (s.get_shard_index label) []) label = some id ∧
    ((mapFind (s.shards_.getD (s.get_shard_index label) []) label).isSome = true →
      ((s.insert label id).shards_.getD (s.get_shard_index label) []).length
        = (s.shards_.getD (s.get_shard_index label) []).length) ∧
    (mapFind (s.shards_.getD (s.get_shard_index label) []) label = none →
      ((s.insert label id).shards_.getD (s.get_shard_index label) []).length
        = (s.shards_.getD (s.get_shard_index label) []).length + 1) := by
  refine ⟨?_, ?_, ?_, ?_⟩
  · rw [find_insert_self s label id h, Nat.mod_eq_of_lt hid]
  · rw [insert_getD_self s label id h, mapFind_mapInsert_self, Nat.mod_eq_of_lt hid]
  · intro hp
    rw [insert_getD_self s label id h]
    exact length_mapInsert_present _ _ _ hp
  · intro hp
    rw [insert_getD_self s label id h]
    exact length_mapInsert_absent _ _ _ hp

/-- Witness for C4 at a concrete instance. -/
theorem insert_never_fails_witness :
    (ShardedLabelLookup.init.insert 9 4).find 9 = 4 ∧
    mapFind ((ShardedLabelLookup.init.insert 9 4).shards_.getD (ShardedLabelLookup.init.get_shard_index 9) []) 9 = some 4 ∧
    ((mapFind (ShardedLabelLookup.init.shards_.getD (ShardedLabelLookup.init.get_shard_index 9) []) 9).isSome = true →
      ((ShardedLabelLookup.init.insert 9 4).shards_.getD (ShardedLabelLookup.init.get_shard_index 9) []).length
        = (ShardedLabelLookup.init.shards_.getD (ShardedLabelLookup.init.get_shard_index 9) []).length) ∧
    (mapFind (ShardedLabelLookup.init.shards_.getD (ShardedLabelLookup.init.get_shard_index 9) []) 9 = none →
      ((ShardedLabelLookup.init.insert 9 4).shards_.getD (ShardedLabelLookup.init.get_shard_index 9) []).length
        = (ShardedLabelLookup.init.shards_.getD (ShardedLabelLookup.init.get_shard_index 9) []).length + 1) :=
  insert_never_fails ShardedLabelLookup.init 9 4 (by decide) (by decide)

/-- C5: `erase(label)` returns true iff an entry for the label was present
(and then removes it); on an absent label it returns false and leaves the
whole state unchanged; two erases in a row return true then false. -/
theorem erase_iff_present (s : ShardedLabelLookup) (L : Nat) (hw : WF s) :
    ((s.erase L).1 = true ↔ L ∈ labelsOf s) ∧
    ((s.erase L).1 = false → (s.erase L).2 = s) ∧
    (L ∈ labelsOf s → (s.erase L).1 = true ∧ ((s.erase L).2.erase L).1 = false) := by
  have hmem := mem_labelsOf_iff s hw L
  refine ⟨?_, ?_, ?_⟩
  · rw [erase_flag]
    exact hmem.symm
  · intro hf
    rw [erase_flag] at hf
    exact erase_absent_noop s L hw.1 hf
  · intro hm
    have hc := hmem.mp hm
    refine ⟨by rw [erase_flag]; exact hc, ?_⟩
    rw [erase_flag, contains_erase s L L hw.1]
    simp

/-- Witness for C5 at a concrete instance. -/
theorem erase_iff_present_witness :
    (((ShardedLabelLookup.init.insert 3 5).erase 3).1 = true ↔ 3 ∈ labelsOf (ShardedLabelLookup.init.insert 3 5)) ∧
    (((ShardedLabelLookup.init.insert 3 5).erase 3).1 = false → ((ShardedLabelLookup.init.insert 3 5).erase 3).2 = ShardedLabelLookup.init.insert 3 5) ∧
    (3 ∈ labelsOf (ShardedLabelLookup.init.insert 3 5) →
      ((ShardedLabelLookup.init.insert 3 5).erase 3).1 = true ∧
      ((((ShardedLabelLookup.init.insert 3 5).erase 3).2).erase 3).1 = false) :=
  erase_iff_present (ShardedLabelLookup.init.insert 3 5) 3 (by decide)

/-- C6: `insert(label, id)` and `erase(label)` touch only `label`'s entry in
`label`'s own shard: every other shard's map and every other label's entry
is unchanged, and the size of `label`'s shard map changes by at most one. -/
theorem single_shard_frame (s : ShardedLabelLookup) (label id j k : Nat)
    (h : s.shards_.length = NUM_SHARDS)
    (hnd : (mapKeys (s.shards_.getD (s.get_shard_index label) [])).Nodup)
    (hj : j ≠ s.get_shard_index label) (hk : k ≠ label) :
    ((s.insert label id).shards_.getD j [] = s.shards_.getD j []) ∧
    ((s.erase label).2.shards_.getD j [] = s.shards_.getD j []) ∧
    (mapFind ((s.insert label id).shards_.getD (s.get_shard_index label) []) k
      = mapFind (s.shards_.getD (s.get_shard_index label) []) k) ∧
    (mapFind ((s.erase label).2.shards_.getD (s.get_shard_index label) []) k
      = mapFind (s.shards_.getD (s.get_shard_index label) []) k) ∧
    ((s.shards_.getD (s.get_shard_index label) []).length
      ≤ ((s.insert label id).shards_.getD (s.get_shard_index label) []).length) ∧
    (((s.insert label id).shards_.getD (s.get_shard_index label) []).length
      ≤ (s.shards_.getD (s.get_shard_index label) []).length + 1) ∧
    (((s.erase label).2.shards_.getD (s.get_shard_index label) []).length
      ≤ (s.shards_.getD (s.get_shard_index label) []).length) ∧
    ((s.shards_.getD (s.get_shard_index label) []).length
      ≤ ((s.erase label).2.shards_.getD (s.get_shard_index label) []).length + 1) := by
  refine ⟨insert_getD_ne s label id j hj, erase_getD_ne s label j hj, ?_, ?_, ?_, ?_, ?_, ?_⟩
  · rw [insert_getD_self s label id h]
    exact mapFind_mapInsert_ne _ _ _ _ hk
  · rw [erase_getD_self s label h]
    exact mapFind_mapErase_ne _ _ _ hk
  · rw [insert_getD_self s label id h]
    rcases hf : mapFind (s.shards_.getD (s.get_shard_index label) []) label with _ | v
    · rw [length_mapInsert_absent _ _ _ hf]
      omega
    · rw [length_mapInsert_present _ _ _ (by rw [hf]; rfl)]
  · rw [insert_getD_self s label id h]
    rcases hf : mapFind (s.shards_.getD (s.get_shard_index label) []) label with _ | v
    · rw [length_mapInsert_absent _ _ _ hf]
    · rw [length_mapInsert_present _ _ _ (by rw [hf]; rfl)]
      omega
  · rw [erase_getD_self s label h]
    exact length_mapErase_le _ _
  · rw [erase_getD_self s label h]
    rcases hf : mapFind (s.shards_.getD (s.get_shard_index label) []) label with _ | v
    · rw [mapErase_noop _ _ hf]
      omega
    · rw [length_mapErase_present _ _ hnd (by rw [hf]; rfl)]

/-- Witness for C6 at a concrete instance. -/
theorem single_shard_frame_witness :
    (((ShardedLabelLookup.init.insert 3 5).insert 3 9).shards_.getD 4 [] = (ShardedLabelLookup.init.insert 3 5).shards_.getD 4 []) ∧
    (((ShardedLabelLookup.init.insert 3 5).erase 3).2.shards_.getD 4 [] = (ShardedLabelLookup.init.insert 3 5).shards_.getD 4 []) ∧
    (mapFind (((ShardedLabelLookup.init.insert 3 5).insert 3 9).shards_.getD ((ShardedLabelLookup.init.insert 3 5).get_shard_index 3) []) 7
      = mapFind ((ShardedLabelLookup.init.insert 3 5).shards_.getD ((ShardedLabelLookup.init.insert 3 5).get_shard_index 3) []) 7) ∧
    (mapFind (((ShardedLabelLookup.init.insert 3 5).erase 3).2.shards_.getD ((ShardedLabelLookup.init.insert 3 5).get_shard_index 3) []) 7
      = mapFind ((ShardedLabelLookup.init.insert 3 5).shards_.getD ((ShardedLabelLookup.init.insert 3 5).get_shard_index 3) []) 7) ∧
    (((ShardedLabelLookup.init.insert 3 5).shards_.getD ((ShardedLabelLookup.init.insert 3 5).get_shard_index 3) []).length
      ≤ (((ShardedLabelLookup.init.insert 3 5).insert 3 9).shards_.getD ((ShardedLabelLookup.init.insert 3 5).get_shard_index 3) []).length) ∧
    ((((ShardedLabelLookup.init.insert 3 5).insert 3 9).shards_.getD ((ShardedLabelLookup.init.insert 3 5).get_shard_index 3) []).length
      ≤ ((ShardedLabelLookup.init.insert 3 5).shards_.getD ((ShardedLabelLookup.init.insert 3 5).get_shard_index 3) []).length + 1) ∧
    ((((ShardedLabelLookup.init.insert 3 5).erase 3).2.shards_.getD ((ShardedLabelLookup.init.insert 3 5).get_shard_index 3) []).length
      ≤ ((ShardedLabelLookup.init.insert 3 5).shards_.getD ((ShardedLabelLookup.init.insert 3 5).get_shard_index 3) []).length) ∧
    (((ShardedLabelLookup.init.insert 3 5).shards_.getD ((ShardedLabelLookup.init.insert 3 5).get_shard_index 3) []).length
      ≤ (((ShardedLabelLookup.init.insert 3 5).erase 3).2.shards_.getD ((ShardedLabelLookup.init.insert 3 5).get_shard_index 3) []).length + 1) :=
  single_shard_frame (ShardedLabelLookup.init.insert 3 5) 3 9 4 7
    (by decide) (by decide) (by decide) (by decide)

/-- C7: the shard count is the construction-time configuration constant
`NUM_SHARDS = 128`: the constructor builds exactly that many shards and no
sequence of operations ever changes the number of shards. -/
theorem shard_count_fixed_128 :
    NUM_SHARDS = 128 ∧
    ShardedLabelLookup.init.shards_.length = NUM_SHARDS ∧
    ∀ (s : ShardedLabelLookup) (ops : List Op),
      (runOps s ops).shards_.length = s.shards_.length := by
  refine ⟨rfl, ?_, fun s ops => length_shards_runOps s ops⟩
  show (List.replicate NUM_SHARDS ([] : List (Nat × Nat))).length = NUM_SHARDS
  exact List.length_replicate _ _

/-- C8: every call locks exactly one shard mutex — the one `get_shard_index`
selects for its label, always a valid index — and accesses only that shard:
`find` and the `erase` flag depend only on that shard's map, and `insert`
and `erase` leave every other shard's map untouched. -/
theorem one_lock_per_operation (s s2 : ShardedLabelLookup) (label id j : Nat)
    (hj : j ≠ s.get_shard_index label)
    (hagree : s2.shards_.getD (s.get_shard_index label) [] =
      s.shards_.getD (s.get_shard_index label) []) :
    (insertLocked s label id).2 = [s.get_shard_index label] ∧
    (findLocked s label).2 = [s.get_shard_index label] ∧
    (eraseLocked s label).2 = [s.get_shard_index label] ∧
    (insertLocked s label id).2.length = 1 ∧
    (findLocked s label).2.length = 1 ∧
    (eraseLocked s label).2.length = 1 ∧
    s.get_shard_index label < NUM_SHARDS ∧
    (insertLocked s label id).1 = s.insert label id ∧
    (findLocked s label).1 = s.find label ∧
    (eraseLocked s label).1 = s.erase label ∧
    (s.insert label id).shards_.getD j [] = s.shards_.getD j [] ∧
    (s.erase label).2.shards_.getD j [] = s.shards_.getD j [] ∧
    s2.find label = s.find label ∧
    (s2.erase label).1 = (s.erase label).1 := by
  refine ⟨rfl, rfl, rfl, rfl, rfl, rfl, get_shard_index_lt s label, rfl, rfl, rfl,
    insert_getD_ne s label id j hj, erase_getD_ne s label j hj, ?_, ?_⟩
  · rw [find_def, find_def, get_shard_index_congr s2 s label, hagree]
  · rw [erase_flag, erase_flag]
    unfold ShardedLabelLookup.contains
    rw [get_shard_index_congr s2 s label, hagree]

/-- Witness for C8 at a concrete instance (a second state agreeing on the
label's shard but differing elsewhere). -/
theorem one_lock_per_operation_witness :
    (insertLocked (ShardedLabelLookup.init.insert 3 5) 3 11).2 = [(ShardedLabelLookup.init.insert 3 5).get_shard_index 3] ∧
    (findLocked (ShardedLabelLookup.init.insert 3 5) 3).2 = [(ShardedLabelLookup.init.insert 3 5).get_shard_index 3] ∧
    (eraseLocked (ShardedLabelLookup.init.insert 3 5) 3).2 = [(ShardedLabelLookup.init.insert 3 5).get_shard_index 3] ∧
    (insertLocked (ShardedLabelLookup.init.insert 3 5) 3 11).2.length = 1 ∧
    (findLocked (ShardedLabelLookup.init.insert 3 5) 3).2.length = 1 ∧
    (eraseLocked (ShardedLabelLookup.init.insert 3 5) 3).2.length = 1 ∧
    (ShardedLabelLookup.init.insert 3 5).get_shard_index 3 < NUM_SHARDS ∧
    (insertLocked (ShardedLabelLookup.init.insert 3 5) 3 11).1 = (ShardedLabelLookup.init.insert 3 5).insert 3 11 ∧
    (findLocked (ShardedLabelLookup.init.insert 3 5) 3).1 = (ShardedLabelLookup.init.insert 3 5).find 3 ∧
    (eraseLocked (ShardedLabelLookup.init.insert 3 5) 3).1 = (ShardedLabelLookup.init.insert 3 5).erase 3 ∧
    ((ShardedLabelLookup.init.insert 3 5).insert 3 11).shards_.getD 9 [] = (ShardedLabelLookup.init.insert 3 5).shards_.getD 9 [] ∧
    ((ShardedLabelLookup.init.insert 3 5).erase 3).2.shards_.getD 9 [] = (ShardedLabelLookup.init.insert 3 5).shards_.getD 9 [] ∧
    ((ShardedLabelLookup.init.insert 3 5).insert 4 9).find 3 = (ShardedLabelLookup.init.insert 3 5).find 3 ∧
    (((ShardedLabelLookup.init.insert 3 5).insert 4 9).erase 3).1 = ((ShardedLabelLookup.init.insert 3 5).erase 3).1 :=
  one_lock_per_operation (ShardedLabelLookup.init.insert 3 5)
    ((ShardedLabelLookup.init.insert 3 5).insert 4 9) 3 11 9 (by decide) (by decide)

/-- C9: the lookup's observable behaviour is independent of the
instrumentation wrapper: wrapping every call in a scoped profiler Timer
changes neither any call's returned value nor the final lookup state. -/
theorem profiler_independent (ps : ProfiledState) (l : List (Op × Event)) :
    (runTimed ps l).lookup = runOps ps.lookup (l.map Prod.fst) ∧
    runTimedResults ps l = runResults ps.lookup (l.map Prod.fst) := by
  induction l generalizing ps with
  | nil => exact ⟨rfl, rfl⟩
  | cons oe rest ih =>
    obtain ⟨h1, h2⟩ := ih (timedStep ps oe.1 oe.2)
    refine ⟨h1, ?_⟩
    show opResult ps.lookup oe.1 :: runTimedResults (timedStep ps oe.1 oe.2) rest
      = opResult ps.lookup oe.1 :: runResults (step ps.lookup oe.1) (rest.map Prod.fst)
    rw [h2]
    rfl

/-- C10: the not-found sentinel collides with a storable id: after
`insert(L, 0xFFFFFFFF)` (the largest `tableint` value, the one the sentinel
`-1` converts to), `find(L)` returns a value equal to the sentinel returned
for an absent label, so the caller cannot tell that id from absence. -/
theorem sentinel_collides_with_max_id (s : ShardedLabelLookup) (L : Nat)
    (h : s.shards_.length = NUM_SHARDS) :
    (s.insert L 4294967295).find L = NOT_FOUND ∧
    ShardedLabelLookup.init.find L = NOT_FOUND := by
  constructor
  · rw [find_insert_self s L 4294967295 h]
    rfl
  · rw [find_def]
    have hs : ShardedLabelLookup.init.shards_ = List.replicate NUM_SHARDS [] := rfl
    rw [hs, getD_replicate_empty]
    rfl

/-- Witness for C10 at a concrete instance. -/
theorem sentinel_collides_with_max_id_witness :
    (ShardedLabelLookup.init.insert 7 4294967295).find 7 = NOT_FOUND ∧
    ShardedLabelLookup.init.find 7 = NOT_FOUND :=
  sentinel_collides_with_max_id ShardedLabelLookup.init 7 (by decide)

end hnswlib
